import Mathlib

/-!
Verification of the hybrid-autoscaler simulation core.

The Python sources (`src/cluster.py` and `src/controllers/*.py`) are embedded
shallowly: Python ints become `ℤ`/`ℕ`, Python floats become `ℚ` (the spec
describes exact arithmetic), fallible operations (list indexing, popping an
empty deque, division by zero) return `Option`, and each stateful object
becomes a Lean structure with an explicit state-passing `update` function.
-/

namespace Autoscaler

/-- Python `int(x)` applied to a float: truncation toward zero. -/
def pyInt (x : ℚ) : ℤ := if 0 ≤ x then ⌊x⌋ else ⌈x⌉

/-- Python `served / cores if cores else 0`: per-tick utilization. -/
def utilization (served cores : ℤ) : ℚ :=
  if cores = 0 then 0 else (served : ℚ) / (cores : ℚ)

/-! ## Cluster engine (`src/cluster.py`) -/

/-- A controller seen from the engine: `update(t, cores, served, queue_len)`
acting on private state `σ`, returning the next core count. -/
structure Controller (σ : Type) where
  update : ℕ → ℤ → ℤ → ℕ → σ → ℤ × σ

/-- The engine's mutable state (`Cluster.__init__` fields). The queue holds
one arrival timestamp per request, front = oldest (`collections.deque`). -/
structure ClusterState (σ : Type) where
  active_cores : ℤ
  latencies : List ℤ
  wasted_cpu_s : ℤ
  sla_viol : ℕ
  queue : List ℕ
  ctrl : σ

/-- Latency recorded for a request that arrived at `a` and completes at tick
`now`: `(now - arrive) * 1000 + 8` (`cluster.py` line 31). -/
def latOf (now a : ℕ) : ℤ := ((now : ℤ) - (a : ℤ)) * 1000 + 8

/-- The service loop of `Cluster.step` (`for _ in range(served): ...`):
pop `n` requests from the queue front, record each latency, and bump the
SLA-violation counter when the latency exceeds 200 ms.  The empty-queue
case cannot be reached from `clusterStep`, where `n ≤ queue.length`. -/
def serveLoop (now : ℕ) : ℕ → List ℕ → List ℤ → ℕ → List ℕ × List ℤ × ℕ
  | 0, q, lats, sla => (q, lats, sla)
  | _ + 1, [], lats, sla => ([], lats, sla)
  | n + 1, a :: q, lats, sla =>
      serveLoop now n q (lats ++ [latOf now a])
        (if 200 < latOf now a then sla + 1 else sla)

/-- One tick of `Cluster.step`: enqueue `load` arrivals stamped `now`, serve
`min(len(queue), active_cores)` of them, account wasted capacity, then let
the controller pick the next core count from the remaining backlog. -/
def clusterStep {σ : Type} (C : Controller σ) (st : ClusterState σ)
    (now load : ℕ) : ClusterState σ :=
  let q1 := st.queue ++ List.replicate load now
  let served : ℤ := min (q1.length : ℤ) st.active_cores
  let res := serveLoop now served.toNat q1 st.latencies st.sla_viol
  { active_cores := (C.update now st.active_cores served res.1.length st.ctrl).1,
    latencies := res.2.1,
    wasted_cpu_s := st.wasted_cpu_s + (st.active_cores - served),
    sla_viol := res.2.2,
    queue := res.1,
    ctrl := (C.update now st.active_cores served res.1.length st.ctrl).2 }

/-- `Cluster.run`'s loop: one `step` per trace entry, tick index ascending. -/
def clusterRunAux {σ : Type} (C : Controller σ) :
    ClusterState σ → ℕ → List ℕ → ClusterState σ
  | st, _, [] => st
  | st, now, load :: rest => clusterRunAux C (clusterStep C st now load) (now + 1) rest

/-- Fresh engine state (`Cluster.__init__`): `active_cores = vms * cpu_per_vm`,
all metrics zero, empty queue. -/
def clusterInit {σ : Type} (s0 : σ) (vms cpu_per_vm : ℕ) : ClusterState σ :=
  { active_cores := (vms * cpu_per_vm : ℕ),
    latencies := [],
    wasted_cpu_s := 0,
    sla_viol := 0,
    queue := [],
    ctrl := s0 }

/-- `Cluster.run` without the final summary: fold the trace from tick 0. -/
def clusterRun {σ : Type} (C : Controller σ) (s0 : σ) (vms cpu_per_vm : ℕ)
    (trace : List ℕ) : ClusterState σ :=
  clusterRunAux C (clusterInit s0 vms cpu_per_vm) 0 trace

/-- The summary record returned by `Cluster._summary`. -/
structure Summary where
  latency_ms : ℚ
  throughput : ℚ
  sla_violation : ℚ
  wasted_cpu_h : ℚ
deriving DecidableEq

/-- `Cluster._summary`: `latency_ms` and `sla_violation` fall back to 0 when
no request completed, but `throughput = len(lat) / len(trace)` divides by the
trace length unconditionally — a `ZeroDivisionError` (here: `none`) when the
trace is empty. -/
def clusterSummary {σ : Type} (st : ClusterState σ) (traceLen : ℕ) :
    Option Summary :=
  if traceLen = 0 then none
  else some
    { latency_ms :=
        if st.latencies.length = 0 then 0
        else (st.latencies.sum : ℚ) / (st.latencies.length : ℚ),
      throughput := (st.latencies.length : ℚ) / (traceLen : ℚ),
      sla_violation :=
        if st.latencies.length = 0 then 0
        else (st.sla_viol : ℚ) / (st.latencies.length : ℚ) * 100,
      wasted_cpu_h := (st.wasted_cpu_s : ℚ) / 3600 }

/-! ## PredictiveHourly (`src/controllers/predictive_hourly.py`) -/

/-- `PredictiveHourly.update`: `hour = t // 3600`; `self.fc[hour]` raises
`IndexError` (here: `none`) when the hour is out of range, else returns
`max(1, ceil(fc[hour] + q))`. -/
def predictiveHourlyUpdate (fc : List ℚ) (t : ℕ) (_cores _served : ℤ) (q : ℕ) :
    Option ℤ :=
  (fc.get? (t / 3600)).map fun fch => max 1 ⌈fch + (q : ℚ)⌉

/-! ## Hybrid (`src/controllers/hybrid.py`) -/

/-- `Hybrid.update` with parameters `(fc, buffer, low, high)`:
`pred_core = fc[t // 3600] + q` (an `IndexError`, here `none`, out of range),
a reactive term scaling `cores` by 1.1 / 0.9 on immediate utilization
thresholds, then `max(1, ceil(max(pred_core, reactive) * (1 + buffer)))`. -/
def hybridUpdate (fc : List ℚ) (buffer low high : ℚ) (t : ℕ)
    (cores served : ℤ) (q : ℕ) : Option ℤ :=
  match fc.get? (t / 3600) with
  | none => none
  | some fch =>
    let pred_core : ℚ := fch + (q : ℚ)
    let util : ℚ := utilization served cores
    let reactive : ℚ :=
      if high < util then (cores : ℚ) * 1.1
      else if util < low then (cores : ℚ) * 0.9
      else (cores : ℚ)
    some (max 1 ⌈max pred_core reactive * (1 + buffer)⌉)

/-! ## Reactive (`src/controllers/reactive.py`) -/

/-- State of the `Reactive` controller: thresholds, step size, and the
fixed-capacity utilization history (`deque([0.0]*delay, maxlen=delay)`),
front = oldest. -/
structure ReactiveState where
  low : ℚ
  high : ℚ
  step : ℚ
  history : List ℚ
deriving DecidableEq

/-- `Reactive.__init__(low, high, step, delay)`. -/
def reactiveInit (low high step : ℚ) (delay : ℕ) : ReactiveState :=
  { low := low, high := high, step := step, history := List.replicate delay 0 }

/-- `Reactive.update`: pops the oldest recorded utilization (`popleft`, an
`IndexError` — here `none` — when the history is empty, i.e. `delay = 0`),
pushes the current one, and scales `cores` by the delayed threshold rule. -/
def reactiveUpdate (c : ReactiveState) (_t : ℕ) (cores served : ℤ)
    (_queue_len : ℕ) : Option (ℤ × ReactiveState) :=
  let util := utilization served cores
  match c.history with
  | [] => none
  | past_util :: rest =>
    let c' : ReactiveState := { c with history := rest ++ [util] }
    if c.high < past_util then
      some (pyInt ((cores : ℚ) * (1 + c.step)), c')
    else if past_util < c.low then
      some (max 1 (pyInt ((cores : ℚ) * (1 - c.step))), c')
    else
      some (cores, c')

/-! ## PredictiveARIMA (`src/controllers/predictive_arima.py`) -/

/-- State of `PredictiveARIMA`: the bounded sample buffer (capacity
`WIN = 1800`), the next refit tick, the last forecast, and the previous
queue length. -/
structure ArimaState where
  buf : List ℤ
  next_t : ℕ
  pred : ℚ
  prev_q : ℕ
deriving DecidableEq

/-- `PredictiveARIMA.__init__`: empty buffer, `next_t = 0`, `pred = 1.0`. -/
def arimaInit : ArimaState := { buf := [], next_t := 0, pred := 1, prev_q := 0 }

/-- Append to a `deque(maxlen=1800)`: evicts the oldest entry when full. -/
def bufAppend (b : List ℤ) (x : ℤ) : List ℤ :=
  if b.length < 1800 then b ++ [x] else b.drop 1 ++ [x]

/-- Arithmetic mean of the buffer (`np.array(buf).mean()`). -/
def listMeanZ (l : List ℤ) : ℚ := (l.sum : ℚ) / (l.length : ℚ)

/-- `PredictiveARIMA.update`.  The external statistical fit
(`ARIMA(arr, order=(1,0,1)).fit().forecast()[0]`, a statsmodels call outside
this repository) is abstracted as an oracle `fit : List ℤ → Option ℚ`, with
`none` standing for the `except Exception` branch; the code then falls back
to the buffer mean.  Refitting happens only when `t >= next_t` and the buffer
holds at least 300 samples, and then schedules `next_t = t + 60`. -/
def arimaUpdate (fit : List ℤ → Option ℚ) (c : ArimaState) (t : ℕ)
    (_cores served : ℤ) (q : ℕ) : ℤ × ArimaState :=
  let load : ℤ := served + max 0 ((q : ℤ) - (c.prev_q : ℤ))
  let buf' := bufAppend c.buf load
  let pred' : ℚ :=
    if c.next_t ≤ t ∧ 300 ≤ buf'.length then
      match fit buf' with
      | some v => v
      | none => listMeanZ buf'
    else c.pred
  let next' : ℕ := if c.next_t ≤ t ∧ 300 ≤ buf'.length then t + 60 else c.next_t
  (max 1 ⌈pred' + (q : ℚ)⌉,
   { buf := buf', next_t := next', pred := pred', prev_q := q })

/-! ## Spec-side reference definitions -/

/-- The threshold scaling rule applied to a given (possibly delayed)
utilization sample, as the spec words it for `Reactive` and for the
immediate-threshold limit case. -/
def reactiveDecision (low high step : ℚ) (cores : ℤ) (past : ℚ) : ℤ :=
  if past > high then pyInt ((cores : ℚ) * (1 + step))
  else if past < low then max 1 (pyInt ((cores : ℚ) * (1 - step)))
  else cores

/-- Hybrid's reactive term as the spec words it: the current tick's
utilization (0 when cores is 0) against the default thresholds, scaling the
current cores by 1.1 / 0.9. -/
def hybridReactiveTermSpec (cores served : ℤ) : ℚ :=
  if utilization served cores > 0.8 then (cores : ℚ) * 1.1
  else if utilization served cores < 0.4 then (cores : ℚ) * 0.9
  else (cores : ℚ)

/-- The output formula the spec claims for `Hybrid.update` at the default
parameters: `max(1, ceil(max(forecast + q, reactive) * (1 + 0.1)))`. -/
def hybridSpecOutput (fch : ℚ) (cores served : ℤ) (q : ℕ) : ℤ :=
  max 1 ⌈max (fch + (q : ℚ)) (hybridReactiveTermSpec cores served) * (1 + 0.1)⌉

/-- A full call sequence against `Reactive.update`: thread the state through
the calls, collecting the returned core counts; fail if any call fails. -/
def reactiveRun :
    ReactiveState → List (ℕ × ℤ × ℤ × ℕ) → Option (List ℤ × ReactiveState)
  | c, [] => some ([], c)
  | c, (t, cores, served, q) :: rest =>
    match reactiveUpdate c t cores served q with
    | none => none
    | some (r, c') =>
      match reactiveRun c' rest with
      | none => none
      | some (outs, cf) => some (r :: outs, cf)

/-- The utilization of each call of an input sequence, in call order. -/
def utilsOf (inputs : List (ℕ × ℤ × ℤ × ℕ)) : List ℚ :=
  inputs.map fun x => utilization x.2.2.1 x.2.1

/-- The `cores` argument of the i-th call (0 out of range). -/
def coresAt (inputs : List (ℕ × ℤ × ℤ × ℕ)) (i : ℕ) : ℤ :=
  ((inputs.get? i).map fun x => x.2.1).getD 0

/-- The delayed utilization the spec assigns to call `i` of a `Reactive`
controller with delay `d`: 0 for the first `d` calls (zero-initialized
history), the utilization recorded `d` calls earlier otherwise. -/
def pastUtilSpec (inputs : List (ℕ × ℤ × ℤ × ℕ)) (d i : ℕ) : ℚ :=
  if i < d then 0 else (utilsOf inputs).getD (i - d) 0

/-- An adversarial controller that always answers 0 cores. -/
def zeroController : Controller Unit := ⟨fun _ _ _ _ s => (0, s)⟩

/-- A trivial controller that always answers 1 core. -/
def oneController : Controller Unit := ⟨fun _ _ _ _ s => (1, s)⟩

/-- Number of requests `Cluster.step` serves at tick `now` from state `st`
with `load` fresh arrivals: `min(len(queue), active_cores)` after enqueue,
as a natural number of loop iterations. -/
def servedCount {σ : Type} (st : ClusterState σ) (now load : ℕ) : ℕ :=
  (min (((st.queue ++ List.replicate load now).length : ℕ) : ℤ)
    st.active_cores).toNat

/-- The requests `Cluster.step` completes at this tick: the FIFO prefix of
the post-enqueue queue. -/
def servedReqs {σ : Type} (st : ClusterState σ) (now load : ℕ) : List ℕ :=
  (st.queue ++ List.replicate load now).take (servedCount st now load)

/-- Naive per-tick reference trajectory: for each tick, the post-enqueue
queue length, the capacity (`active_cores`), and the served count computed
independently of the engine's accumulators. -/
def tickRecords {σ : Type} (C : Controller σ) :
    ClusterState σ → ℕ → List ℕ → List (ℕ × ℤ × ℤ)
  | _, _, [] => []
  | st, now, load :: rest =>
      ((st.queue ++ List.replicate load now).length, st.active_cores,
        min (((st.queue ++ List.replicate load now).length : ℕ) : ℤ)
          st.active_cores)
        :: tickRecords C (clusterStep C st now load) (now + 1) rest

/-- Index bound for `List.get?` being defined. -/
theorem get?_isSome_iff {α : Type} (l : List α) (n : ℕ) :
    (l.get? n).isSome = true ↔ n < l.length := by
  induction l generalizing n with
  | nil => simp [List.get?]
  | cons a l ih =>
      cases n with
      | zero => simp [List.get?]
      | succ m => simpa [List.get?, Nat.succ_lt_succ_iff] using ih m

/-! ## Claim theorems -/

/-- C1, counterexample: the engine does not clamp the controller's output.
`Cluster.step` assigns `self.active_cores = self.ctrl.update(...)` directly
(`cluster.py` lines 38-39), so a controller returning 0 drives
`active_cores` to 0 after one tick, violating `active_cores ≥ 1`. -/
theorem engine_no_clamp_counterexample :
    (clusterRun zeroController () 100 4 [0]).active_cores = 0 ∧
    ¬ (1 ≤ (clusterRun zeroController () 100 4 [0]).active_cores) := by decide

/-- Helper: the run loop keeps `active_cores ≥ 1` whenever the controller
always answers at least 1. -/
theorem runAux_cores_ge_one {σ : Type} (C : Controller σ)
    (hC : ∀ t cores served q s, 1 ≤ (C.update t cores served q s).1) :
    ∀ (trace : List ℕ) (st : ClusterState σ) (now : ℕ),
      1 ≤ st.active_cores → 1 ≤ (clusterRunAux C st now trace).active_cores := by
  intro trace
  induction trace with
  | nil => intro st now h; exact h
  | cons load rest ih =>
      intro st now _
      apply ih
      show (1 : ℤ) ≤ (C.update now st.active_cores _ _ st.ctrl).1
      exact hC _ _ _ _ _

/-- C1, amended: the engine assigns the controller's output to
`active_cores` without any clamp; `active_cores ≥ 1` after every tick holds
provided the controller's `update` always returns at least 1 (as every
controller shipped in this repository does from a positive core count), and
the initial `vms * cpu_per_vm` is at least 1. -/
theorem cores_ge_one_of_controller {σ : Type} (C : Controller σ)
    (hC : ∀ t cores served q s, 1 ≤ (C.update t cores served q s).1)
    (s0 : σ) (vms cpu_per_vm : ℕ) (h0 : 1 ≤ vms * cpu_per_vm)
    (trace : List ℕ) :
    1 ≤ (clusterRun C s0 vms cpu_per_vm trace).active_cores := by
  apply runAux_cores_ge_one C hC
  show (1 : ℤ) ≤ ((vms * cpu_per_vm : ℕ) : ℤ)
  exact_mod_cast h0

/-- C1 amended, witness at a concrete controller and trace. -/
theorem cores_ge_one_witness :
    1 ≤ (clusterRun oneController () 100 4 [5, 3]).active_cores :=
  cores_ge_one_of_controller oneController (fun _ _ _ _ _ => le_refl 1)
    () 100 4 (by decide) [5, 3]

/-- C4, counterexample: `throughput` is not confined to `[0, 1]`.  With the
default 400 initial cores and the one-tick trace `[2]`, both arrivals are
served in tick 0, so `throughput = 2 / 1 = 2 > 1`. -/
theorem throughput_exceeds_one_counterexample :
    clusterSummary (clusterRun oneController () 100 4 [2]) 1 =
      some { latency_ms := 8, throughput := 2, sla_violation := 0,
             wasted_cpu_h := 199 / 1800 } ∧
    ¬ ((clusterRun oneController () 100 4 [2]).latencies.length : ℚ) / 1 ≤ 1 := by
  have h1 : (clusterRun oneController () 100 4 [2]).latencies = [8, 8] := by decide
  have h2 : (clusterRun oneController () 100 4 [2]).sla_viol = 0 := by decide
  have h3 : (clusterRun oneController () 100 4 [2]).wasted_cpu_s = 398 := by decide
  constructor
  · simp only [clusterSummary, h1, h2, h3]
    norm_num
  · rw [h1]
    norm_num

/-- C5: with the default parameters `buffer = 0.1, low = 0.4, high = 0.8`,
whenever the hour index `t / 3600` is in range of the forecast table,
`Hybrid.update` returns exactly
`max(1, ceil(max(fc[t / 3600] + q, reactive) * (1 + buffer)))`, where the
reactive term scales `cores` by 1.1 above the high threshold and 0.9 below
the low one (utilization taken as 0 when cores is 0). -/
theorem hybrid_update_formula (fc : List ℚ) (t : ℕ) (cores served : ℤ)
    (q : ℕ) (fch : ℚ) (h : fc.get? (t / 3600) = some fch) :
    hybridUpdate fc 0.1 0.4 0.8 t cores served q =
      some (hybridSpecOutput fch cores served q) := by
  unfold hybridUpdate hybridSpecOutput hybridReactiveTermSpec
  rw [h]

/-- C5, witness. -/
theorem hybrid_update_formula_witness :
    ([50] : List ℚ).get? (0 / 3600) = some 50 ∧
    hybridUpdate [50] 0.1 0.4 0.8 0 4 2 3 = some (hybridSpecOutput 50 4 2 3) :=
  ⟨rfl, hybrid_update_formula [50] 0 4 2 3 50 rfl⟩

/-- C7: `PredictiveARIMA.update` returns normally for every outcome of the
external fit: the result is always `max(1, ceil(pred + q))` for the updated
forecast `pred`; the forecast is refit exactly when `t` has reached the
scheduled `next_t` and the (capped) buffer holds at least 300 samples, in
which case the next refit is scheduled 60 ticks later and a failed fit
(`none` from the oracle) is replaced by the buffer's arithmetic mean;
otherwise the previous forecast and schedule are kept. -/
theorem arima_refit_fallback_total (fit : List ℤ → Option ℚ) (c : ArimaState)
    (t : ℕ) (cores served : ℤ) (q : ℕ) :
    (arimaUpdate fit c t cores served q).1 =
      max 1 ⌈(arimaUpdate fit c t cores served q).2.pred + (q : ℚ)⌉ ∧
    (arimaUpdate fit c t cores served q).2.buf =
      bufAppend c.buf (served + max 0 ((q : ℤ) - (c.prev_q : ℤ))) ∧
    (arimaUpdate fit c t cores served q).2.pred =
      (if c.next_t ≤ t ∧
          300 ≤ (bufAppend c.buf (served + max 0 ((q : ℤ) - (c.prev_q : ℤ)))).length then
        match fit (bufAppend c.buf (served + max 0 ((q : ℤ) - (c.prev_q : ℤ)))) with
        | some v => v
        | none => listMeanZ (bufAppend c.buf (served + max 0 ((q : ℤ) - (c.prev_q : ℤ))))
      else c.pred) ∧
    (arimaUpdate fit c t cores served q).2.next_t =
      (if c.next_t ≤ t ∧
          300 ≤ (bufAppend c.buf (served + max 0 ((q : ℤ) - (c.prev_q : ℤ)))).length then
        t + 60
      else c.next_t) :=
  ⟨rfl, rfl, rfl, rfl⟩

/-- C8, counterexample: `Reactive(delay=0)` starts with an empty history, so
the very first `update` hits `popleft()` on an empty deque (an `IndexError`,
here `none`) instead of producing any scaling decision, while the
immediate-threshold rule at the same input `(t=0, cores=10, served=9, q=0)`
would answer 11. -/
theorem reactive_delay_zero_counterexample :
    reactiveUpdate (reactiveInit 0.4 0.8 0.1 0) 0 10 9 0 = none ∧
    reactiveDecision 0.4 0.8 0.1 10 (utilization 9 10) = 11 := by
  constructor
  · rfl
  · norm_num [reactiveDecision, utilization, pyInt]

/-- C8, amended: a `Reactive` controller constructed with `delay = 0` never
returns a decision — every `update` call fails on the empty history — so it
does not reduce to an immediate-threshold controller. -/
theorem reactive_delay_zero_always_fails (low high step : ℚ) (t : ℕ)
    (cores served : ℤ) (q : ℕ) :
    reactiveUpdate (reactiveInit low high step 0) t cores served q = none := rfl

/-- C9: the run produces a `Summary` exactly for non-empty traces: the
`throughput` division by `len(trace)` is unguarded, so the empty trace makes
`_summary` fail (division by zero), while the `or 0` fallbacks protect only
`latency_ms` and `sla_violation`, whose divisors are completion counts. -/
theorem summary_isSome_iff_trace_nonempty {σ : Type} (C : Controller σ)
    (s0 : σ) (vms cpu_per_vm : ℕ) (trace : List ℕ) :
    (clusterSummary (clusterRun C s0 vms cpu_per_vm trace) trace.length).isSome
      = true ↔ trace ≠ [] := by
  cases trace <;> simp [clusterSummary]

/-- C10: `PredictiveHourly.update` and `Hybrid.update` return a core count
exactly when the hour index `t // 3600` is within the forecast table; past
the table they fail with an out-of-range index error (no modulo-24 wrap). -/
theorem forecast_index_in_range_iff (fc : List ℚ) (buffer low high : ℚ)
    (t : ℕ) (cores served : ℤ) (q : ℕ) :
    ((predictiveHourlyUpdate fc t cores served q).isSome = true ↔
      t / 3600 < fc.length) ∧
    ((hybridUpdate fc buffer low high t cores served q).isSome = true ↔
      t / 3600 < fc.length) := by
  constructor
  · rw [← get?_isSome_iff fc (t / 3600)]
    unfold predictiveHourlyUpdate
    cases fc.get? (t / 3600) <;> simp
  · rw [← get?_isSome_iff fc (t / 3600)]
    unfold hybridUpdate
    cases fc.get? (t / 3600) <;> simp

/-- Projection: the latencies after one step come from the service loop. -/
theorem clusterStep_latencies {σ : Type} (C : Controller σ)
    (st : ClusterState σ) (now load : ℕ) :
    (clusterStep C st now load).latencies =
      (serveLoop now (servedCount st now load)
        (st.queue ++ List.replicate load now) st.latencies st.sla_viol).2.1 := rfl

/-- Projection: the queue after one step comes from the service loop. -/
theorem clusterStep_queue {σ : Type} (C : Controller σ)
    (st : ClusterState σ) (now load : ℕ) :
    (clusterStep C st now load).queue =
      (serveLoop now (servedCount st now load)
        (st.queue ++ List.replicate load now) st.latencies st.sla_viol).1 := rfl

/-- Projection: the SLA counter after one step comes from the service loop. -/
theorem clusterStep_sla {σ : Type} (C : Controller σ)
    (st : ClusterState σ) (now load : ℕ) :
    (clusterStep C st now load).sla_viol =
      (serveLoop now (servedCount st now load)
        (st.queue ++ List.replicate load now) st.latencies st.sla_viol).2.2 := rfl

/-- Projection: wasted capacity accumulated in one step. -/
theorem clusterStep_wasted {σ : Type} (C : Controller σ)
    (st : ClusterState σ) (now load : ℕ) :
    (clusterStep C st now load).wasted_cpu_s =
      st.wasted_cpu_s +
        (st.active_cores -
          min (((st.queue ++ List.replicate load now).length : ℕ) : ℤ)
            st.active_cores) := rfl

/-- The served count never exceeds the post-enqueue queue length. -/
theorem servedCount_le_length {σ : Type} (st : ClusterState σ) (now load : ℕ) :
    servedCount st now load ≤ (st.queue ++ List.replicate load now).length := by
  unfold servedCount
  rw [Int.toNat_le]
  exact min_le_left _ _

/-- Characterization of the service loop as take / drop / map / countP, for
any pop count within the queue length. -/
theorem serveLoop_spec (now : ℕ) :
    ∀ (n : ℕ) (q : List ℕ) (lats : List ℤ) (sla : ℕ), n ≤ q.length →
      serveLoop now n q lats sla =
        (q.drop n,
         lats ++ (q.take n).map (latOf now),
         sla + ((q.take n).map (latOf now)).countP (fun l => decide (200 < l))) := by
  intro n
  induction n with
  | zero => intro q lats sla _; simp [serveLoop]
  | succ m ih =>
      intro q lats sla h
      cases q with
      | nil => simp at h
      | cons a q' =>
          rw [serveLoop, ih q' _ _ (by simpa using h)]
          refine Prod.ext rfl (Prod.ext ?_ ?_)
          · simp
          · simp only [List.take_succ_cons, List.map_cons, List.countP_cons]
            split <;> simp_all <;> omega

/-- C2: at every tick, each completed request's recorded latency is exactly
`(completion_tick - arrival_tick) * 1000 + 8`, every recorded latency is
non-negative (given the queue invariant that arrivals are not in the
future), the SLA counter grows by exactly the number of this tick's
completions whose latency exceeds 200 ms, and service is FIFO: the completed
requests are the front prefix of the post-enqueue queue and the remainder
stays. -/
theorem step_latency_sla_fifo {σ : Type} (C : Controller σ)
    (st : ClusterState σ) (now load : ℕ)
    (harr : ∀ a ∈ st.queue, a ≤ now) :
    (clusterStep C st now load).latencies =
      st.latencies ++ (servedReqs st now load).map (latOf now) ∧
    (∀ l ∈ (servedReqs st now load).map (latOf now), 0 ≤ l) ∧
    (clusterStep C st now load).sla_viol =
      st.sla_viol +
        ((servedReqs st now load).map (latOf now)).countP
          (fun l => decide (200 < l)) ∧
    (clusterStep C st now load).queue =
      (st.queue ++ List.replicate load now).drop (servedCount st now load) := by
  have hn := servedCount_le_length st now load
  have hrw := serveLoop_spec now (servedCount st now load)
    (st.queue ++ List.replicate load now) st.latencies st.sla_viol hn
  have hmem : ∀ a ∈ servedReqs st now load, a ≤ now := by
    intro a ha
    have : a ∈ st.queue ++ List.replicate load now :=
      List.mem_of_mem_take ha
    rcases List.mem_append.mp this with h | h
    · exact harr a h
    · exact le_of_eq (List.eq_of_mem_replicate h)
  refine ⟨?_, ?_, ?_, ?_⟩
  · rw [clusterStep_latencies, hrw]
    rfl
  · intro l hl
    rcases List.mem_map.mp hl with ⟨a, ha, rfl⟩
    have := hmem a ha
    unfold latOf
    omega
  · rw [clusterStep_sla, hrw]
    rfl
  · rw [clusterStep_queue, hrw]

/-- C2, witness at a concrete step. -/
theorem step_latency_sla_fifo_witness :
    (∀ a ∈ (clusterInit () 100 4 : ClusterState Unit).queue, a ≤ 0) ∧
    (∀ l ∈ (servedReqs (clusterInit () 100 4 : ClusterState Unit) 0 2).map
        (latOf 0), 0 ≤ l) :=
  ⟨by decide,
   (step_latency_sla_fifo oneController (clusterInit () 100 4) 0 2
      (by decide)).2.1⟩

/-- Each reference record's served component is `min(queue length, cores)`. -/
theorem tickRecords_served {σ : Type} (C : Controller σ) :
    ∀ (trace : List ℕ) (st : ClusterState σ) (now : ℕ),
      ∀ r ∈ tickRecords C st now trace, r.2.2 = min (r.1 : ℤ) r.2.1 := by
  intro trace
  induction trace with
  | nil => intro st now r hr; simp [tickRecords] at hr
  | cons load rest ih =>
      intro st now r hr
      rw [tickRecords] at hr
      rcases List.mem_cons.mp hr with h | h
      · subst h; rfl
      · exact ih _ _ r h

/-- The engine's wasted-capacity accumulator equals the naive per-tick sum
over the reference trajectory. -/
theorem runAux_wasted {σ : Type} (C : Controller σ) :
    ∀ (trace : List ℕ) (st : ClusterState σ) (now : ℕ),
      (clusterRunAux C st now trace).wasted_cpu_s =
        st.wasted_cpu_s +
          ((tickRecords C st now trace).map (fun r => r.2.1 - r.2.2)).sum := by
  intro trace
  induction trace with
  | nil => intro st now; simp [clusterRunAux, tickRecords]
  | cons load rest ih =>
      intro st now
      rw [clusterRunAux, ih, tickRecords]
      simp only [List.map_cons, List.sum_cons, clusterStep_wasted]
      omega

/-- C3: every tick's served count is `min(post-enqueue queue length,
active_cores)` — hence bounded by both — and the Summary's `wasted_cpu_h` is
the per-tick sum of `capacity - served` over the naive reference trajectory,
divided by 3600. -/
theorem served_min_and_wasted_sum {σ : Type} (C : Controller σ) (s0 : σ)
    (vms cpu_per_vm : ℕ) (trace : List ℕ) (s : Summary)
    (hs : clusterSummary (clusterRun C s0 vms cpu_per_vm trace) trace.length
            = some s) :
    (∀ r ∈ tickRecords C (clusterInit s0 vms cpu_per_vm) 0 trace,
        r.2.2 = min (r.1 : ℤ) r.2.1 ∧ r.2.2 ≤ (r.1 : ℤ) ∧ r.2.2 ≤ r.2.1) ∧
    s.wasted_cpu_h =
      (((((tickRecords C (clusterInit s0 vms cpu_per_vm) 0 trace).map
          (fun r => r.2.1 - r.2.2)).sum : ℤ)) : ℚ) / 3600 := by
  constructor
  · intro r hr
    have h := tickRecords_served C trace (clusterInit s0 vms cpu_per_vm) 0 r hr
    exact ⟨h, h ▸ min_le_left _ _, h ▸ min_le_right _ _⟩
  · unfold clusterSummary at hs
    split at hs
    · exact absurd hs (by simp)
    · have hsw := congrArg Summary.wasted_cpu_h (Option.some.inj hs)
      rw [← hsw]
      show ((clusterRun C s0 vms cpu_per_vm trace).wasted_cpu_s : ℚ) / 3600 = _
      rw [clusterRun, runAux_wasted]
      norm_num [clusterInit]

/-- C3, witness. -/
theorem served_min_and_wasted_sum_witness :
    clusterSummary (clusterRun oneController () 100 4 [2]) 1 =
      some { latency_ms := 8, throughput := 2, sla_violation := 0,
             wasted_cpu_h := 199 / 1800 } ∧
    (Summary.mk 8 2 0 (199 / 1800)).wasted_cpu_h =
      (((((tickRecords oneController (clusterInit () 100 4 : ClusterState Unit)
          0 [2]).map (fun r => r.2.1 - r.2.2)).sum : ℤ)) : ℚ) / 3600 := by
  have hs : clusterSummary (clusterRun oneController () 100 4 [2]) 1 =
      some { latency_ms := 8, throughput := 2, sla_violation := 0,
             wasted_cpu_h := 199 / 1800 } := by
    have h1 : (clusterRun oneController () 100 4 [2]).latencies = [8, 8] := by
      decide
    have h2 : (clusterRun oneController () 100 4 [2]).sla_viol = 0 := by decide
    have h3 : (clusterRun oneController () 100 4 [2]).wasted_cpu_s = 398 := by
      decide
    simp only [clusterSummary, h1, h2, h3]
    norm_num
  exact ⟨hs,
    (served_min_and_wasted_sum oneController () 100 4 [2] _ hs).2⟩

/-- Request conservation in one step: completions plus remaining backlog
equal prior records plus prior backlog plus fresh arrivals. -/
theorem clusterStep_counts {σ : Type} (C : Controller σ)
    (st : ClusterState σ) (now load : ℕ) :
    (clusterStep C st now load).latencies.length +
        (clusterStep C st now load).queue.length =
      st.latencies.length + st.queue.length + load := by
  have hn := servedCount_le_length st now load
  have hrw := serveLoop_spec now (servedCount st now load)
    (st.queue ++ List.replicate load now) st.latencies st.sla_viol hn
  rw [clusterStep_latencies, clusterStep_queue, hrw]
  simp only [List.length_append, List.length_drop, List.length_map,
    List.length_take, List.length_replicate]
  omega

/-- Request conservation over a whole run. -/
theorem runAux_counts {σ : Type} (C : Controller σ) :
    ∀ (trace : List ℕ) (st : ClusterState σ) (now : ℕ),
      (clusterRunAux C st now trace).latencies.length +
          (clusterRunAux C st now trace).queue.length =
        st.latencies.length + st.queue.length + trace.sum := by
  intro trace
  induction trace with
  | nil => intro st now; simp [clusterRunAux]
  | cons load rest ih =>
      intro st now
      rw [clusterRunAux, ih]
      have := clusterStep_counts C st now load
      simp only [List.sum_cons]
      omega

/-- C4, amended: `throughput` is the completed-request count divided by the
tick count; it is always non-negative and bounded by total arrivals divided
by tick count (so it lies in `[0, 1]` exactly when no more requests complete
than ticks elapse, and can exceed 1 otherwise). -/
theorem throughput_nonneg_le_arrival_rate {σ : Type} (C : Controller σ)
    (s0 : σ) (vms cpu_per_vm : ℕ) (trace : List ℕ) (s : Summary)
    (hs : clusterSummary (clusterRun C s0 vms cpu_per_vm trace) trace.length
            = some s) :
    0 ≤ s.throughput ∧
    s.throughput ≤ (trace.sum : ℚ) / (trace.length : ℚ) := by
  unfold clusterSummary at hs
  split at hs
  · exact absurd hs (by simp)
  · rename_i hlen
    have hst := congrArg Summary.throughput (Option.some.inj hs)
    rw [← hst]
    have hcomp : (clusterRun C s0 vms cpu_per_vm trace).latencies.length ≤
        trace.sum := by
      have h := runAux_counts C trace (clusterInit s0 vms cpu_per_vm) 0
      rw [show (clusterInit s0 vms cpu_per_vm : ClusterState σ).latencies.length
            = 0 from rfl,
          show (clusterInit s0 vms cpu_per_vm : ClusterState σ).queue.length
            = 0 from rfl] at h
      rw [clusterRun]
      omega
    have hpos : (0 : ℚ) < (trace.length : ℚ) := by
      exact_mod_cast Nat.pos_of_ne_zero hlen
    constructor
    · exact div_nonneg (by positivity) (le_of_lt hpos)
    · exact (div_le_div_iff_of_pos_right hpos).mpr (by exact_mod_cast hcomp)

/-- C4 amended, witness. -/
theorem throughput_nonneg_witness :
    clusterSummary (clusterRun oneController () 100 4 [0]) 1 =
      some { latency_ms := 0, throughput := 0, sla_violation := 0,
             wasted_cpu_h := 1 / 9 } ∧
    (0 ≤ (Summary.mk 0 0 0 (1 / 9)).throughput ∧
      (Summary.mk 0 0 0 (1 / 9)).throughput ≤
        (([0] : List ℕ).sum : ℚ) / (([0] : List ℕ).length : ℚ)) := by
  have hs : clusterSummary (clusterRun oneController () 100 4 [0]) 1 =
      some { latency_ms := 0, throughput := 0, sla_violation := 0,
             wasted_cpu_h := 1 / 9 } := by
    have h1 : (clusterRun oneController () 100 4 [0]).latencies = [] := by
      decide
    have h2 : (clusterRun oneController () 100 4 [0]).sla_viol = 0 := by decide
    have h3 : (clusterRun oneController () 100 4 [0]).wasted_cpu_s = 400 := by
      decide
    simp only [clusterSummary, h1, h2, h3]
    norm_num
  exact ⟨hs,
    throughput_nonneg_le_arrival_rate oneController () 100 4 [0] _ hs⟩

/-- One `Reactive.update` call on a non-empty history pops the front sample
and answers with the threshold decision on it. -/
theorem reactiveUpdate_eq (c : ReactiveState) (t : ℕ) (cores served : ℤ)
    (q : ℕ) (p : ℚ) (hr : List ℚ) (hh : c.history = p :: hr) :
    reactiveUpdate c t cores served q =
      some (reactiveDecision c.low c.high c.step cores p,
        { c with history := hr ++ [utilization served cores] }) := by
  unfold reactiveUpdate reactiveDecision
  rw [hh]
  simp only [gt_iff_lt]
  split
  · rfl
  · split <;> rfl

/-- Reading a zero-padded history: the pad answers 0, the tail shifts. -/
theorem pad_getD : ∀ (d i : ℕ) (L : List ℚ),
    (List.replicate d (0 : ℚ) ++ L).getD i 0 =
      if i < d then 0 else L.getD (i - d) 0 := by
  intro d
  induction d with
  | zero => intro i L; simp
  | succ m ih =>
      intro i L
      cases i with
      | zero => simp [List.replicate_succ]
      | succ j =>
          rw [List.replicate_succ]
          simp only [List.cons_append, List.getD_cons_succ, ih j L,
            Nat.succ_lt_succ_iff, Nat.succ_sub_succ]

/-- The FIFO history makes call `i` decide on the `i`-th element of the
initial history followed by the per-call utilizations. -/
theorem reactiveRun_spec :
    ∀ (inputs : List (ℕ × ℤ × ℤ × ℕ)) (c : ReactiveState),
      c.history ≠ [] →
      ∃ cf, reactiveRun c inputs =
        some (((List.range inputs.length).map fun i =>
          reactiveDecision c.low c.high c.step (coresAt inputs i)
            ((c.history ++ utilsOf inputs).getD i 0)), cf) := by
  intro inputs
  induction inputs with
  | nil => intro c _; exact ⟨c, by simp [reactiveRun]⟩
  | cons x rest ih =>
      obtain ⟨t, cores, served, q⟩ := x
      intro c hc
      obtain ⟨p, hr, hh⟩ : ∃ p hr, c.history = p :: hr := by
        cases h : c.history with
        | nil => exact absurd h hc
        | cons p hr => exact ⟨p, hr, rfl⟩
      obtain ⟨cf, hrest⟩ :=
        ih { c with history := hr ++ [utilization served cores] } (by simp)
      refine ⟨cf, ?_⟩
      rw [reactiveRun, reactiveUpdate_eq c t cores served q p hr hh]
      simp only []
      rw [hrest]
      simp only [List.length_cons, List.range_succ_eq_map, List.map_cons,
        List.map_map]
      refine congrArg some (Prod.ext ?_ rfl)
      refine congrArg₂ List.cons ?_ ?_
      · rw [hh]
        rfl
      · apply List.map_congr_left
        intro i _
        rw [List.append_assoc, hh]
        rfl

/-- C6: a `Reactive` controller with delay `d ≥ 1` succeeds on every call
sequence, and its `i`-th decision applies the threshold rule (grow by
`1 + step` truncated toward zero above `high`, shrink to
`max(1, cores * (1 - step))` below `low`, else unchanged) to the utilization
recorded `d` calls earlier — 0 for the first `d` calls, the history being
zero-initialized. -/
theorem reactive_delayed_threshold (low high step : ℚ) (d : ℕ) (hd : 1 ≤ d)
    (inputs : List (ℕ × ℤ × ℤ × ℕ)) :
    ∃ cf, reactiveRun (reactiveInit low high step d) inputs =
      some (((List.range inputs.length).map fun i =>
        reactiveDecision low high step (coresAt inputs i)
          (pastUtilSpec inputs d i)), cf) := by
  obtain ⟨cf, h⟩ := reactiveRun_spec inputs (reactiveInit low high step d)
    (by
      simp only [reactiveInit, ne_eq, List.replicate_eq_nil]
      omega)
  refine ⟨cf, ?_⟩
  rw [h]
  congr 2
  apply List.map_congr_left
  intro i _
  show reactiveDecision low high step (coresAt inputs i)
      ((List.replicate d (0 : ℚ) ++ utilsOf inputs).getD i 0) = _
  rw [pad_getD]
  rfl

/-- C6, witness. -/
theorem reactive_delayed_threshold_witness :
    1 ≤ 1 ∧
    ∃ cf, reactiveRun (reactiveInit 0.4 0.8 0.1 1) [(0, 10, 9, 0)] =
      some (((List.range ([(0, 10, 9, 0)] :
              List (ℕ × ℤ × ℤ × ℕ)).length).map fun i =>
        reactiveDecision 0.4 0.8 0.1 (coresAt [(0, 10, 9, 0)] i)
          (pastUtilSpec [(0, 10, 9, 0)] 1 i)), cf) :=
  ⟨le_refl 1,
   reactive_delayed_threshold 0.4 0.8 0.1 1 (le_refl 1) [(0, 10, 9, 0)]⟩

end Autoscaler
